import Mathlib

/-!
Verification development for the Open WebUI chat-completion dispatch and
execution subsystem, as documented in `src/roger/chatflow.md` and
`src/roger/agentmode_prd.md`, together with the frontend agent API client
in `src/src/lib/apis/agents.ts` and the admin components under
`src/src/lib/components/admin/`.

Each definition below embeds one piece of the source; theorems settle the
frozen claims about that source.
-/

namespace ChatFlow

/-! ## Filter pipeline (pipelines.py behavior as documented in chatflow.md 491-502)

A filter has an id, a priority (`model["pipeline"]["priority"]`), and an
endpoint.  Invoking the endpoint on a payload either succeeds with a new
payload or fails (network error, timeout, non-2xx response); failure is
modelled as `none`. -/

structure Filter (α : Type) where
  id : String
  priority : Int
  response : α → Option α

/-- A single filter application: on success the payload becomes the filter
output; on failure the error is logged and the payload is left unchanged
(the filter is skipped), per chatflow.md 496-497: errors are logged but do
NOT break the pipeline chain. -/
def applyFilterResponse {α : Type} (f : Filter α) (p : α) : α :=
  match f.response p with
  | some q => q
  | none => p

/-- `process_pipeline_inlet_filter` body (chatflow.md 491-497): iterate the
(already sorted) filter list, applying each filter to the current payload;
continue to the next filter even if one fails.  Returns the final payload
together with the list of filter ids that were invoked, in invocation
order. -/
def applyInletFilters {α : Type} : List (Filter α) → α → α × List String
  | [], p => (p, [])
  | f :: fs, p =>
    let step := applyInletFilters fs (applyFilterResponse f p)
    (step.1, f.id :: step.2)

/-! ## Filter ordering (chatflow.md 493: filters are sorted by
`model["pipeline"]["priority"]`; Python `sorted` is a stable sort keyed on
priority only). -/

structure FilterDesc where
  id : String
  priority : Int
  deriving DecidableEq, Repr

/-- Insert a descriptor after every element whose priority is less than or
equal to its own: combined with a left fold this is exactly a stable sort
keyed on priority, matching Python `sorted(filters, key=priority)`. -/
def insertStable (f : FilterDesc) : List FilterDesc → List FilterDesc
  | [] => [f]
  | g :: gs => if g.priority ≤ f.priority then g :: insertStable f gs else f :: g :: gs

/-- The sorted filter order used by `process_pipeline_inlet_filter`:
ascending priority, stable (equal priorities keep their input order). -/
def sortFiltersByPriority (fs : List FilterDesc) : List FilterDesc :=
  fs.foldl (fun acc f => insertStable f acc) []

/-- The ordering the claim asserts: ascending priority with ties broken by
filter id. -/
def specTieBreakOrder (f g : FilterDesc) : Prop :=
  f.priority < g.priority ∨ (f.priority = g.priority ∧ f.id ≤ g.id)

instance specTieBreakOrderDecidable : DecidableRel specTieBreakOrder := by
  intro f g
  unfold specTieBreakOrder
  infer_instance

/-! ## Streaming persistence on cancellation (middleware.py 2237-2249 as
quoted in chatflow.md 699-714, and the ENABLE_REALTIME_CHAT_SAVE table of
chatflow.md 725-728).

During streaming the handler accumulates PartialContent chunks in
`content_blocks`.  With ENABLE_REALTIME_CHAT_SAVE true, each chunk is
written to the database as it is received; with it false, nothing is
written during streaming, and the `asyncio.CancelledError` handler calls
`Chats.upsert_message_to_chat_by_id_and_message_id` with
`serialize_content_blocks(content_blocks)` before teardown. -/

/-- Serialization of the accumulated content blocks into the persisted
content string: the concatenation of the blocks. -/
def serializeContentBlocks (blocks : List String) : String :=
  String.join blocks

/-- Per-request streaming state: accumulated content blocks plus the
content currently persisted in the chat message record. -/
structure StreamState where
  contentBlocks : List String
  persisted : String

/-- Receiving one PartialContent chunk: append it to the accumulator and,
when realtime saving is enabled, immediately persist the serialized
accumulator. -/
def processChunk (realtime : Bool) (s : StreamState) (chunk : String) : StreamState :=
  let blocks := s.contentBlocks ++ [chunk]
  { contentBlocks := blocks,
    persisted := if realtime then serializeContentBlocks blocks else s.persisted }

/-- The CancelledError handler: when realtime saving is disabled, upsert
the serialized accumulator to the chat message before teardown; when it is
enabled, every received chunk is already persisted. -/
def onCancelled (realtime : Bool) (s : StreamState) : StreamState :=
  if realtime then s
  else { s with persisted := serializeContentBlocks s.contentBlocks }

/-- A streaming run that is cancelled after `cancelAt` chunks have been
emitted: the chunks observed strictly before the cancellation signal are
processed, then the CancelledError handler runs. -/
def runStreamCancelled (realtime : Bool) (chunks : List String) (cancelAt : Nat) : StreamState :=
  onCancelled realtime ((chunks.take cancelAt).foldl (processChunk realtime) ⟨[], ""⟩)

/-! ## Streaming bridge (`_iterate_async_gen_in_sync`, chatflow.md 506-553).

The background thread pushes each chunk of the async generator into
`thread_queue` and finally pushes `None` as the end-of-stream signal; the
main thread blocks on `thread_queue.get()`, breaks when it sees `None`,
and yields every other item.  An item in the channel is `some chunk`; the
sentinel is `none`. -/

/-- The sequence the producer context pushes into the hand-off channel:
every generated item, in generation order, followed by the end-of-stream
sentinel. -/
def producerPushSequence {α : Type} (items : List α) : List (Option α) :=
  items.map some ++ [none]

/-- The consumer loop: take items from the channel in order, stop at the
first sentinel (which is not forwarded), and forward everything before it. -/
def consumeUntilSentinel {α : Type} : List (Option α) → List α
  | [] => []
  | none :: _ => []
  | some x :: rest => x :: consumeUntilSentinel rest

/-! ## Gateway to execution-backend timeouts (env.py 439-447 as quoted in
chatflow.md 198-209, and the timeout table of chatflow.md 131-137). -/

/-- The numeric value of a decimal digit character, or `none` for any
other character. -/
def digitVal (c : Char) : Option Nat :=
  if c.isDigit then some (c.toNat - 48) else none

/-- Accumulate a run of decimal digits; any non-digit makes the whole
parse fail. -/
def parseDigitsAux : List Char → Nat → Option Nat
  | [], acc => some acc
  | c :: cs, acc =>
    match digitVal c with
    | none => none
    | some d => parseDigitsAux cs (acc * 10 + d)

/-- Python `int(s)` on a trimmed string: an optional sign followed by a
nonempty run of decimal digits; anything else raises, modelled as `none`. -/
def pyInt (s : String) : Option Int :=
  match s.data with
  | [] => none
  | c :: cs =>
    if c = '-' then
      match cs with
      | [] => none
      | _ => (parseDigitsAux cs 0).map (fun n => -(n : Int))
    else if c = '+' then
      match cs with
      | [] => none
      | _ => (parseDigitsAux cs 0).map (fun n => (n : Int))
    else (parseDigitsAux (c :: cs) 0).map (fun n => (n : Int))

/-- The processing of the AIOHTTP_CLIENT_TIMEOUT environment variable:
`os.environ.get` with default empty string; an empty value becomes `None`
(no timeout, infinite wait); otherwise `int()` is attempted and a
conversion failure defaults to 300 seconds.  Python `int(s)` is modelled
by `pyInt`; `none` models Python `None`. -/
def parseAiohttpClientTimeout (envValue : Option String) : Option Int :=
  let s := envValue.getD ""
  if s = "" then none
  else
    match pyInt s with
    | some n => some n
    | none => some 300

/-- Default of AIOHTTP_CLIENT_TIMEOUT_MODEL_LIST (chatflow.md 134):
10 seconds, used for model list fetching from pipeline and LLM servers. -/
def aiohttpClientTimeoutModelListDefault : Int := 10

/-! ## Hand-off channel state machine (chatflow.md 519:
`thread_queue = queue.Queue()`).

Python `queue.Queue()` with no maxsize argument has maxsize 0, meaning an
unbounded queue: `put` never blocks and is enabled in every state; `get`
removes the oldest item.  The state records the buffered items plus the
push and take histories. -/

structure QueueState where
  buffer : List Nat
  pushed : List Nat
  taken : List Nat
  deriving DecidableEq, Repr

/-- One transition of the `thread_queue` channel: the background thread
may always `put` an item (unbounded queue, no blocking condition on put),
and the main thread may `get` the oldest buffered item. -/
inductive QueueStep : QueueState → QueueState → Prop
  | put (s : QueueState) (x : Nat) :
      QueueStep s ⟨s.buffer ++ [x], s.pushed ++ [x], s.taken⟩
  | get (s : QueueState) (x : Nat) (rest : List Nat) (h : s.buffer = x :: rest) :
      QueueStep s ⟨rest, s.pushed, s.taken ++ [x]⟩

/-- Reachability from the freshly constructed empty queue. -/
def QueueReachable (s : QueueState) : Prop :=
  Relation.ReflTransGen QueueStep ⟨[], [], []⟩ s

/-! ## Routing decision (`generate_chat_completion`, chatflow.md 44-67 and
chat.py routing 251-280).

The documented order is: embedded pipe function first
(`model.get("pipe")`), then arena (`owned_by == "arena"`, randomly select
a member and re-run), then ollama, then the default OpenAI-compatible
path.  The agent branch is not part of chatflow.md; per
agentmode_prd.md / agentmode_devlog.md the execution engine detects agent
models and routes them to the agent executor, and the spec places this
rule between the embedded-function rule and the arena rule.  The field
`isAgent` and its position in the rule order are therefore modelled from
the spec (the backend routing code itself is not under src). -/

structure ModelDesc where
  id : String
  pipe : Bool
  isAgent : Bool
  ownedBy : String
  arenaModelIds : List String

/-- The five handler classes of the dispatch layer. -/
inductive Handler where
  | embeddedFunction
  | agent
  | localRuntime
  | remoteServer
  deriving DecidableEq, Repr

/-- Arena member selection: uniform random among eligible members,
modelled as indexing the member list by a uniformly drawn number modulo
the member count.  Modelled from the spec: chatflow.md 54 only says
random selection; the uniform policy is the spec wording. -/
def selectArenaModel (members : List String) (r : Nat) : String :=
  members.getD (r % members.length) ""

/-- The classification chain of `generate_chat_completion`, first match
wins: embedded pipe function, agent (spec-modelled rule), arena (resolve
one member and re-run classification on it), ollama local runtime,
default remote OpenAI-compatible server.  `fuel` bounds arena re-runs;
`rands` supplies one random draw per arena resolution; `registry` resolves
a model id to its descriptor. -/
def classifyModel (registry : String → Option ModelDesc) :
    Nat → List Nat → ModelDesc → Option Handler
  | 0, _, _ => none
  | fuel + 1, rands, m =>
    if m.pipe then some Handler.embeddedFunction
    else if m.isAgent then some Handler.agent
    else if m.ownedBy = "arena" then
      match rands with
      | [] => none
      | r :: rs =>
        match registry (selectArenaModel m.arenaModelIds r) with
        | none => none
        | some m2 => classifyModel registry fuel rs m2
    else if m.ownedBy = "ollama" then some Handler.localRuntime
    else some Handler.remoteServer

end ChatFlow

namespace AgentMode

/-! ## Tool adapter authorization (agentmode_prd.md 30-34).

Modelled from the spec: the OpenWebUIToolAdapter implementation
(`backend/open_webui/utils/openwebui_tool_adapter.py`) and the
`call_agent` tool (`backend/open_webui/utils/agent_tools.py`) are not
under src; only the PRD and devlog describe them.  Per the PRD the
adapter discovers only tools the current user has permission to access
and proxies tool execution calls from the agent back to the Open WebUI
core, so that all existing security and logic are reused; `call_agent`
recursively dispatches to another agent on behalf of the same user. -/

/-- The read-only permission table: the pairs (userId, toolId) the
permission system grants. -/
def hasToolPermission (perms : List (String × String)) (userId toolId : String) : Bool :=
  (userId, toolId) ∈ perms

/-- The tool environment of one request: the permission table and the
tool implementations (toolId and args to result). -/
structure ToolEnv where
  perms : List (String × String)
  impl : String → String → String

/-- A direct user-initiated tool invocation: the core permission check,
then execution; a user lacking permission is rejected (`none`). -/
def directToolInvoke (env : ToolEnv) (userId toolId args : String) : Option String :=
  if hasToolPermission env.perms userId toolId then some (env.impl toolId args) else none

/-- Modelled from the spec: the adapter method `execute_tool_by_id`
proxies the invocation back to the core, reusing the same permission
check and execution logic as a direct call, on behalf of the invoking
user. -/
def adapterToolInvoke (env : ToolEnv) (userId toolId args : String) : Option String :=
  directToolInvoke env userId toolId args

/-- One step of an agent program: invoke a tool, or invoke another agent
through the built-in call_agent tool. -/
inductive AgentAction where
  | useTool (toolId args : String)
  | callAgent (agentId : String)

/-- The fuel-bounded expansion of one agent action into the tool
invocations it causes, across call_agent indirection: a tool action is
one invocation; a call_agent action runs the target agent body, whose
actions are expanded at smaller depth. -/
def expandAction (agents : String → List AgentAction) : Nat → AgentAction → List (String × String)
  | _, AgentAction.useTool t a => [(t, a)]
  | 0, AgentAction.callAgent _ => []
  | fuel + 1, AgentAction.callAgent g =>
      (agents g).flatMap (fun act => expandAction agents fuel act)

/-- Every tool invocation performed during a run of `rootAgent` on behalf
of `userId`, together with its outcome through the adapter proxy. -/
def agentRunInvocations (env : ToolEnv) (agents : String → List AgentAction)
    (userId : String) (fuel : Nat) (rootAgent : String) :
    List (String × String × Option String) :=
  (expandAction agents fuel (AgentAction.callAgent rootAgent)).map
    (fun p => (p.1, p.2, adapterToolInvoke env userId p.1 p.2))

end AgentMode

namespace AgentsApi

/-! ## Frontend agents API client (`src/src/lib/apis/agents.ts`) and the
admin editor (`src/src/lib/components/admin/Agents/AgentEditor.svelte`). -/

/-- The outcome of one fetch: `ok` is `response.ok`; `jsonBody` is the
outcome of `await response.json()` (an exception while parsing rejects). -/
structure FetchResponse (α : Type) where
  ok : Bool
  jsonBody : Except String α

/-- `getAgents` (agents.ts 7-24): on an ok response, parse the body, set
the `agents` store to it and return it; on a non-ok response, set the
store to the empty list and return the empty list without touching the
body.  The result pairs the new store value with the returned value;
`Except.error` models a thrown exception. -/
def getAgents (resp : FetchResponse (List String)) :
    Except String (List String × List String) :=
  if resp.ok then
    match resp.jsonBody with
    | Except.ok data => Except.ok (data, data)
    | Except.error e => Except.error e
  else
    Except.ok ([], [])

/-- An issued HTTP request: its URL and its header list. -/
structure HttpRequest where
  url : String
  headers : List (String × String)
  deriving DecidableEq, Repr

/-- `getAgent` (agents.ts 26-29): `fetch` on the agents id endpoint with
no options at all, hence no authorization header; the only input is the
single `id` parameter. -/
def getAgentRequest (baseUrl id : String) : HttpRequest :=
  { url := baseUrl ++ "/agents/id/" ++ id, headers := [] }

/-- A call environment for the client: the configured base URL and the
value of `localStorage.token`. -/
structure CallEnv where
  baseUrl : String
  token : String

/-- The request `getAgent` issues in a given environment: the token of
the environment is not an input of `getAgent`, so it cannot influence the
request. -/
def getAgentRequestInEnv (env : CallEnv) (id : String) : HttpRequest :=
  getAgentRequest env.baseUrl id

/-- The `onMount` call of AgentEditor.svelte 19-23:
`getAgent(localStorage.token, agentId)` passes two arguments to the
one-parameter function `getAgent`; by JavaScript call semantics the extra
argument is ignored and the first argument (the token) is bound to `id`. -/
def agentEditorOnMountRequest (env : CallEnv) (agentId : String) : HttpRequest :=
  getAgentRequestInEnv env env.token

end AgentsApi

/-! ## Helper lemmas -/

namespace ChatFlow

lemma applyInletFilters_ids {α : Type} (fs : List (Filter α)) (p : α) :
    (applyInletFilters fs p).2 = fs.map Filter.id := by
  induction fs generalizing p with
  | nil => rfl
  | cons f fs ih => simp [applyInletFilters, ih]

lemma applyInletFilters_append {α : Type} (xs ys : List (Filter α)) (p : α) :
    applyInletFilters (xs ++ ys) p =
      ((applyInletFilters ys (applyInletFilters xs p).1).1,
       (applyInletFilters xs p).2 ++ (applyInletFilters ys (applyInletFilters xs p).1).2) := by
  induction xs generalizing p with
  | nil => simp [applyInletFilters]
  | cons f fs ih => simp [applyInletFilters, ih]

lemma mem_insertStable (f x : FilterDesc) (acc : List FilterDesc) :
    x ∈ insertStable f acc ↔ x = f ∨ x ∈ acc := by
  induction acc with
  | nil => simp [insertStable]
  | cons g gs ih =>
    by_cases h : g.priority ≤ f.priority
    · simp [insertStable, h, ih]
      tauto
    · simp [insertStable, h]

lemma insertStable_perm (f : FilterDesc) (acc : List FilterDesc) :
    (insertStable f acc).Perm (f :: acc) := by
  induction acc with
  | nil => simp [insertStable]
  | cons g gs ih =>
    by_cases h : g.priority ≤ f.priority
    · simp only [insertStable, h, if_pos]
      exact (ih.cons g).trans (List.Perm.swap f g gs)
    · simp [insertStable, h]

lemma insertStable_sorted (f : FilterDesc) (acc : List FilterDesc)
    (hacc : acc.Pairwise (fun a b => a.priority ≤ b.priority)) :
    (insertStable f acc).Pairwise (fun a b => a.priority ≤ b.priority) := by
  induction acc with
  | nil => simp [insertStable]
  | cons g gs ih =>
    rcases List.pairwise_cons.mp hacc with ⟨hg, hgs⟩
    by_cases h : g.priority ≤ f.priority
    · simp only [insertStable, h, if_pos]
      refine List.pairwise_cons.mpr ⟨?_, ih hgs⟩
      intro x hx
      rcases (mem_insertStable f x gs).mp hx with rfl | hmem
      · exact h
      · exact hg x hmem
    · have hstep : insertStable f (g :: gs) = f :: g :: gs := by
        simp [insertStable, h]
      rw [hstep]
      refine List.pairwise_cons.mpr ⟨?_, hacc⟩
      intro x hx
      rcases List.mem_cons.mp hx with rfl | hmem
      · exact le_of_lt (lt_of_not_le h)
      · exact le_trans (le_of_lt (lt_of_not_le h)) (hg x hmem)

lemma filter_insertStable (f : FilterDesc) (acc : List FilterDesc) (p : Int)
    (hacc : acc.Pairwise (fun a b => a.priority ≤ b.priority)) :
    (insertStable f acc).filter (fun g => g.priority == p) =
      if f.priority == p
      then acc.filter (fun g => g.priority == p) ++ [f]
      else acc.filter (fun g => g.priority == p) := by
  induction acc with
  | nil =>
    by_cases h : f.priority = p <;> simp [insertStable, h]
  | cons g gs ih =>
    rcases List.pairwise_cons.mp hacc with ⟨hg, hgs⟩
    by_cases h : g.priority ≤ f.priority
    · have hstep : insertStable f (g :: gs) = g :: insertStable f gs := by
        simp [insertStable, h]
      rw [hstep, List.filter_cons, ih hgs]
      by_cases hgp : g.priority = p
      · by_cases hf : f.priority = p <;> simp [hgp, hf]
      · by_cases hf : f.priority = p <;> simp [hgp, hf]
    · have hlt : f.priority < g.priority := lt_of_not_le h
      have hstep : insertStable f (g :: gs) = f :: g :: gs := by
        simp [insertStable, h]
      by_cases hf : f.priority = p
      · have hpg : p < g.priority := by
          rw [← hf]
          exact hlt
        have hgp : ¬ g.priority = p := by
          intro hgp
          rw [hgp] at hpg
          exact lt_irrefl p hpg
        have hrest : gs.filter (fun x => x.priority == p) = [] := by
          rw [List.filter_eq_nil_iff]
          intro x hx
          have hpx : p < x.priority := lt_of_lt_of_le hpg (hg x hx)
          simp only [beq_iff_eq]
          intro hxp
          rw [hxp] at hpx
          exact lt_irrefl p hpx
        rw [hstep]
        simp [List.filter_cons, hf, hgp, hrest]
      · rw [hstep]
        simp [List.filter_cons, hf]

lemma sortFilters_invariant (fs : List FilterDesc) (acc : List FilterDesc)
    (hacc : acc.Pairwise (fun a b => a.priority ≤ b.priority)) :
    (fs.foldl (fun acc f => insertStable f acc) acc).Pairwise
        (fun a b => a.priority ≤ b.priority)
    ∧ (∀ p : Int,
        (fs.foldl (fun acc f => insertStable f acc) acc).filter (fun g => g.priority == p)
          = acc.filter (fun g => g.priority == p) ++ fs.filter (fun g => g.priority == p))
    ∧ (fs.foldl (fun acc f => insertStable f acc) acc).Perm (acc ++ fs) := by
  induction fs generalizing acc with
  | nil => simp [hacc]
  | cons f rest ih =>
    have hins := insertStable_sorted f acc hacc
    rcases ih (insertStable f acc) hins with ⟨h1, h2, h3⟩
    refine ⟨h1, ?_, ?_⟩
    · intro p
      have hstep := filter_insertStable f acc p hacc
      rw [List.foldl_cons, h2 p, hstep]
      by_cases hf : f.priority = p
      · simp [hf]
      · simp [hf]
    · rw [List.foldl_cons]
      refine h3.trans ?_
      refine ((insertStable_perm f acc).append_right rest).trans ?_
      exact List.perm_middle.symm

lemma foldl_processChunk_blocks (realtime : Bool) (cs : List String) (s : StreamState) :
    (cs.foldl (processChunk realtime) s).contentBlocks = s.contentBlocks ++ cs := by
  induction cs generalizing s with
  | nil => simp
  | cons c rest ih => simp [processChunk, ih]

lemma foldl_processChunk_realtime (cs : List String) (s : StreamState)
    (hs : s.persisted = serializeContentBlocks s.contentBlocks) :
    (cs.foldl (processChunk true) s).persisted =
      serializeContentBlocks ((cs.foldl (processChunk true) s).contentBlocks) := by
  induction cs generalizing s with
  | nil => simpa using hs
  | cons c rest ih =>
    simp only [List.foldl_cons]
    exact ih _ (by simp [processChunk])

lemma consume_map_some {α : Type} (items : List α) (rest : List (Option α)) :
    consumeUntilSentinel (items.map some ++ none :: rest) = items := by
  induction items with
  | nil => rfl
  | cons x xs ih => simp [consumeUntilSentinel, ih]

lemma queueReachable_replicate (n : Nat) :
    QueueReachable ⟨List.replicate n 0, List.replicate n 0, []⟩ := by
  induction n with
  | zero => exact Relation.ReflTransGen.refl
  | succ k ih =>
    have hstep := QueueStep.put ⟨List.replicate k 0, List.replicate k 0, []⟩ 0
    rw [← List.replicate_succ' k 0] at hstep
    exact Relation.ReflTransGen.tail ih hstep

lemma queueStep_invariant {s t : QueueState} (h : QueueStep s t)
    (hs : s.taken ++ s.buffer = s.pushed) : t.taken ++ t.buffer = t.pushed := by
  cases h with
  | put x =>
    simp only []
    rw [← List.append_assoc, hs]
  | get x rest hbuf =>
    simp only []
    rw [List.append_assoc]
    simpa [← hbuf] using hs

end ChatFlow

/-! ## Claim theorems -/

/-- Claim C1: the filter pipeline is fail-soft.  For every filter chain
split as `pre ++ f :: post` and every payload, if the invocation of `f`
fails on the payload it receives (network error, timeout, or non-2xx
response, modelled as `none`), the pipeline treats `f` as the identity
transformation, so the final payload is the one obtained by running only
`post` on the payload that entered `f`, and every filter of the chain,
including all of `post`, is still invoked in order: no filter failure
aborts the request. -/
theorem filter_pipeline_fail_soft {α : Type} (pre post : List (ChatFlow.Filter α))
    (f : ChatFlow.Filter α) (p : α)
    (hfail : f.response (ChatFlow.applyInletFilters pre p).1 = none) :
    ChatFlow.applyInletFilters (pre ++ f :: post) p =
      ((ChatFlow.applyInletFilters post (ChatFlow.applyInletFilters pre p).1).1,
       (pre ++ f :: post).map ChatFlow.Filter.id) := by
  rw [ChatFlow.applyInletFilters_append]
  simp [ChatFlow.applyInletFilters, ChatFlow.applyFilterResponse, hfail,
        ChatFlow.applyInletFilters_ids]

/-- Witness for C1: a two-filter chain over Nat payloads in which the
first filter fails; the pipeline still returns the second filter output
and both filters were invoked. -/
theorem filter_pipeline_fail_soft_witness :
    ChatFlow.applyInletFilters
        [⟨"f1", 1, fun _ => none⟩, ⟨"f2", 2, fun n => some (n + 1)⟩] (0 : Nat)
      = (1, ["f1", "f2"]) := by
  have h := filter_pipeline_fail_soft (α := Nat) []
      [⟨"f2", 2, fun n => some (n + 1)⟩] ⟨"f1", 1, fun _ => none⟩ 0 rfl
  simpa [ChatFlow.applyInletFilters, ChatFlow.applyFilterResponse] using h

/-- Counterexample to claim C7: the pipeline sorts filters by priority
only (Python stable sort), so equal-priority filters keep input order and
are NOT reordered by filter id.  With the input list holding id "b" then
id "a" at the same priority, the executed order is "b" before "a", which
violates the claimed (priority, id) ordering. -/
theorem filter_tie_break_counterexample :
    ¬ (ChatFlow.sortFiltersByPriority
        [⟨"b", 1⟩, ⟨"a", 1⟩]).Pairwise ChatFlow.specTieBreakOrder := by
  intro h
  have hba : ChatFlow.specTieBreakOrder ⟨"b", 1⟩ ⟨"a", 1⟩ := by
    have hsort : ChatFlow.sortFiltersByPriority [⟨"b", 1⟩, ⟨"a", 1⟩]
        = [⟨"b", 1⟩, ⟨"a", 1⟩] := by decide
    rw [hsort] at h
    exact (List.pairwise_cons.mp h).1 _ (List.mem_singleton.mpr rfl)
  rcases hba with hlt | ⟨_, hle⟩
  · exact lt_irrefl 1 hlt
  · have hnot : ¬ (("b" : String) ≤ "a") := by
      rw [String.le_iff_toList_le]
      decide
    exact hnot hle

/-- Claim C7 as amended: for every filter set, `process_pipeline_inlet_filter`
executes the filters sorted by ascending priority; the sort is a
permutation of the attached filters and is stable, so equal-priority
filters keep their input order (ties are not broken by id); the order is
deterministic because it is a pure function of the filter list. -/
theorem filter_order_amended (fs : List ChatFlow.FilterDesc) :
    (ChatFlow.sortFiltersByPriority fs).Pairwise (fun a b => a.priority ≤ b.priority)
    ∧ (ChatFlow.sortFiltersByPriority fs).Perm fs
    ∧ (∀ p : Int,
        (ChatFlow.sortFiltersByPriority fs).filter (fun g => g.priority == p)
          = fs.filter (fun g => g.priority == p)) := by
  rcases ChatFlow.sortFilters_invariant fs [] List.Pairwise.nil with ⟨h1, h2, h3⟩
  exact ⟨h1, by simpa using h3, fun p => by simpa using h2 p⟩

/-- Claim C2: for every streaming request that is cancelled after
`cancelAt` chunks, under either value of ENABLE_REALTIME_CHAT_SAVE, the
persisted content after the CancelledError handler runs (before teardown)
is exactly the concatenation of the PartialContent chunks emitted strictly
before the cancellation signal: no emitted content is lost and none is
duplicated. -/
theorem cancelled_stream_persists_prefix (realtime : Bool) (chunks : List String)
    (cancelAt : Nat) :
    (ChatFlow.runStreamCancelled realtime chunks cancelAt).persisted
      = String.join (chunks.take cancelAt) := by
  cases realtime with
  | false =>
    unfold ChatFlow.runStreamCancelled ChatFlow.onCancelled
    simp [ChatFlow.foldl_processChunk_blocks, ChatFlow.serializeContentBlocks]
  | true =>
    unfold ChatFlow.runStreamCancelled ChatFlow.onCancelled
    simp only [if_pos]
    rw [ChatFlow.foldl_processChunk_realtime _ _ rfl,
        ChatFlow.foldl_processChunk_blocks]
    simp [ChatFlow.serializeContentBlocks]

/-- Claim C5: the streaming bridge forwards, as OutputEvents, exactly the
items the producer pushed, in push order, and consumption terminates
precisely at the first end-of-stream sentinel, which itself is not
forwarded: anything behind the sentinel in the channel is never consumed. -/
theorem streaming_bridge_order_and_sentinel {α : Type} (items : List α)
    (rest : List (Option α)) :
    ChatFlow.consumeUntilSentinel (ChatFlow.producerPushSequence items) = items
    ∧ ChatFlow.consumeUntilSentinel (items.map some ++ none :: rest) = items := by
  constructor
  · unfold ChatFlow.producerPushSequence
    exact ChatFlow.consume_map_some items []
  · exact ChatFlow.consume_map_some items rest

/-- Counterexample to claim C6: the hand-off channel is created as
`queue.Queue()` with no maxsize, which in Python is an UNBOUNDED queue, so
there is no capacity bound: for every candidate bound `c` some reachable
state buffers more than `c` items (the producer can always push without
blocking). -/
theorem queue_bounded_capacity_counterexample :
    ¬ ∃ c : Nat, ∀ s : ChatFlow.QueueState,
        ChatFlow.QueueReachable s → s.buffer.length ≤ c := by
  rintro ⟨c, h⟩
  have hc := h _ (ChatFlow.queueReachable_replicate (c + 1))
  simp only [List.length_replicate] at hc
  omega

/-- Claim C6 as amended: the hand-off channel is an unbounded FIFO queue:
in every reachable state the items taken so far followed by the buffered
items are exactly the items pushed, in push order (no pushed item is ever
dropped), and a push is enabled in every state, so the producer never
blocks on a full channel. -/
theorem queue_unbounded_lossless (s : ChatFlow.QueueState)
    (h : ChatFlow.QueueReachable s) :
    s.taken ++ s.buffer = s.pushed
    ∧ ∀ x : Nat, ChatFlow.QueueStep s ⟨s.buffer ++ [x], s.pushed ++ [x], s.taken⟩ := by
  constructor
  · induction h with
    | refl => rfl
    | tail hsteps hstep ih => exact ChatFlow.queueStep_invariant hstep ih
  · intro x
    exact ChatFlow.QueueStep.put s x

/-- Witness for C6 amended: the state reached by put 1, put 2, get is
reachable, is loss-free, and still accepts any push. -/
theorem queue_unbounded_lossless_witness :
    ([1] : List Nat) ++ [2] = [1, 2]
    ∧ ∀ x : Nat, ChatFlow.QueueStep ⟨[2], [1, 2], [1]⟩
        ⟨[2] ++ [x], [1, 2] ++ [x], [1]⟩ := by
  have hreach : ChatFlow.QueueReachable ⟨[2], [1, 2], [1]⟩ :=
    Relation.ReflTransGen.tail
      (Relation.ReflTransGen.tail
        (Relation.ReflTransGen.tail Relation.ReflTransGen.refl
          (ChatFlow.QueueStep.put ⟨[], [], []⟩ 1))
        (ChatFlow.QueueStep.put ⟨[1], [1], []⟩ 2))
      (ChatFlow.QueueStep.get ⟨[1, 2], [1, 2], []⟩ 1 [2] rfl)
  exact queue_unbounded_lossless ⟨[2], [1, 2], [1]⟩ hreach

/-- Claim C4: dispatch classifies a request by the rules in fixed order,
first match wins: embedded pipe function; custom or workflow agent; arena
group, resolving one member by the uniform policy (index the eligible
member list by the random draw modulo its length) and re-running
classification on the resolved model; ollama local runtime; otherwise the
remote OpenAI-compatible server. -/
theorem dispatch_classification_order
    (registry : String → Option ChatFlow.ModelDesc) (fuel : Nat) (rands : List Nat)
    (m : ChatFlow.ModelDesc) :
    (m.pipe = true →
      ChatFlow.classifyModel registry (fuel + 1) rands m
        = some ChatFlow.Handler.embeddedFunction)
    ∧ (m.pipe = false → m.isAgent = true →
      ChatFlow.classifyModel registry (fuel + 1) rands m = some ChatFlow.Handler.agent)
    ∧ (m.pipe = false → m.isAgent = false → m.ownedBy = "arena" →
      ∀ r rs, rands = r :: rs →
        ChatFlow.classifyModel registry (fuel + 1) rands m
          = (registry (ChatFlow.selectArenaModel m.arenaModelIds r)).bind
              (ChatFlow.classifyModel registry fuel rs)
        ∧ ChatFlow.selectArenaModel m.arenaModelIds r
            = m.arenaModelIds.getD (r % m.arenaModelIds.length) "")
    ∧ (m.pipe = false → m.isAgent = false → m.ownedBy = "ollama" →
      ChatFlow.classifyModel registry (fuel + 1) rands m
        = some ChatFlow.Handler.localRuntime)
    ∧ (m.pipe = false → m.isAgent = false → m.ownedBy ≠ "arena" → m.ownedBy ≠ "ollama" →
      ChatFlow.classifyModel registry (fuel + 1) rands m
        = some ChatFlow.Handler.remoteServer) := by
  refine ⟨?_, ?_, ?_, ?_, ?_⟩
  · intro hp
    simp [ChatFlow.classifyModel, hp]
  · intro hp ha
    simp [ChatFlow.classifyModel, hp, ha]
  · intro hp ha ho r rs hr
    subst hr
    refine ⟨?_, rfl⟩
    simp only [ChatFlow.classifyModel, hp, ha, ho]
    cases registry (ChatFlow.selectArenaModel m.arenaModelIds r) <;> simp
  · intro hp ha ho
    have hno : m.ownedBy ≠ "arena" := by
      rw [ho]
      decide
    simp [ChatFlow.classifyModel, hp, ha, ho, hno]
  · intro hp ha ho1 ho2
    simp [ChatFlow.classifyModel, hp, ha, ho1, ho2]

/-- Witness for C4: one concrete model per rule, including an arena model
whose chosen member resolves to a remote-server model after re-running
classification. -/
theorem dispatch_classification_order_witness :
    ChatFlow.classifyModel (fun _ => none) 1 [] ⟨"e", true, false, "", []⟩
        = some ChatFlow.Handler.embeddedFunction
    ∧ ChatFlow.classifyModel (fun _ => none) 1 [] ⟨"a", false, true, "", []⟩
        = some ChatFlow.Handler.agent
    ∧ ChatFlow.classifyModel
          (fun i => if i = "m1" then some ⟨"m1", false, false, "x", []⟩ else none)
          2 [0] ⟨"ar", false, false, "arena", ["m1"]⟩
        = some ChatFlow.Handler.remoteServer
    ∧ ChatFlow.classifyModel (fun _ => none) 1 [] ⟨"o", false, false, "ollama", []⟩
        = some ChatFlow.Handler.localRuntime
    ∧ ChatFlow.classifyModel (fun _ => none) 1 [] ⟨"r", false, false, "openai", []⟩
        = some ChatFlow.Handler.remoteServer := by
  refine ⟨?_, ?_, ?_, ?_, ?_⟩
  · exact (dispatch_classification_order (fun _ => none) 0 [] _).1 rfl
  · exact (dispatch_classification_order (fun _ => none) 0 [] _).2.1 rfl rfl
  · have h := ((dispatch_classification_order
        (fun i => if i = "m1" then some ⟨"m1", false, false, "x", []⟩ else none)
        1 [0] ⟨"ar", false, false, "arena", ["m1"]⟩).2.2.1 rfl rfl rfl 0 [] rfl).1
    exact h.trans rfl
  · exact (dispatch_classification_order (fun _ => none) 0 [] _).2.2.2.1 rfl rfl rfl
  · exact (dispatch_classification_order (fun _ => none) 0 [] _).2.2.2.2 rfl rfl
      (by decide) (by decide)

/-- Claim C3: every tool invocation performed on behalf of a user during
an agent run, at any call_agent depth, has exactly the outcome of the
direct user-initiated invocation of the same tool by the same user: it
succeeds if and only if the user has permission for that tool, so agent
indirection grants no additional privileges. -/
theorem agent_tool_authorization_equivalence
    (env : AgentMode.ToolEnv) (agents : String → List AgentMode.AgentAction)
    (userId : String) (fuel : Nat) (root t a : String) (r : Option String)
    (hmem : (t, a, r) ∈ AgentMode.agentRunInvocations env agents userId fuel root) :
    r = AgentMode.directToolInvoke env userId t a
    ∧ (r.isSome = true ↔ AgentMode.hasToolPermission env.perms userId t = true) := by
  rcases List.mem_map.mp hmem with ⟨p, hp, heq⟩
  simp only [Prod.mk.injEq] at heq
  obtain ⟨h1, h2, h3⟩ := heq
  subst h1
  subst h2
  subst h3
  constructor
  · rfl
  · cases hb : AgentMode.hasToolPermission env.perms userId p.1 <;>
      simp [AgentMode.adapterToolInvoke, AgentMode.directToolInvoke, hb]

/-- Witness for C3: a one-tool agent run by user "u" who has permission
for tool "t1"; the invocation result equals the direct invocation result
and is a success exactly because permission holds. -/
theorem agent_tool_authorization_equivalence_witness :
    some "t1" = AgentMode.directToolInvoke ⟨[("u", "t1")], fun t _ => t⟩ "u" "t1" "x"
    ∧ ((some "t1" : Option String).isSome = true
        ↔ AgentMode.hasToolPermission [("u", "t1")] "u" "t1" = true) :=
  agent_tool_authorization_equivalence ⟨[("u", "t1")], fun t _ => t⟩
    (fun g => if g = "A" then [AgentMode.AgentAction.useTool "t1" "x"] else [])
    "u" 1 "A" "t1" "x" (some "t1") (by decide)

/-- Counterexample to claim C8: when the AIOHTTP_CLIENT_TIMEOUT
environment option is unset, the completion-request timeout is None
(infinite wait), not a finite multi-minute default: no finite value is
produced. -/
theorem timeout_default_counterexample :
    ChatFlow.parseAiohttpClientTimeout none = none
    ∧ ¬ ∃ n : Int, ChatFlow.parseAiohttpClientTimeout none = some n := by
  refine ⟨rfl, ?_⟩
  rintro ⟨n, hn⟩
  rw [show ChatFlow.parseAiohttpClientTimeout none = none from rfl] at hn
  exact Option.noConfusion hn

/-- Claim C8 as amended: when AIOHTTP_CLIENT_TIMEOUT is unset or empty
the completion-request timeout is None (infinite wait); when it is set but
unparsable it defaults to the finite multi-minute value 300 seconds; when
it parses, the parsed value is used; metadata-only model-list calls use
the separate, shorter 10-second default. -/
theorem timeout_config_amended :
    ChatFlow.parseAiohttpClientTimeout none = none
    ∧ ChatFlow.parseAiohttpClientTimeout (some "") = none
    ∧ (∀ s : String, s ≠ "" → ChatFlow.pyInt s = none →
        ChatFlow.parseAiohttpClientTimeout (some s) = some 300)
    ∧ (∀ (s : String) (n : Int), s ≠ "" → ChatFlow.pyInt s = some n →
        ChatFlow.parseAiohttpClientTimeout (some s) = some n)
    ∧ ChatFlow.aiohttpClientTimeoutModelListDefault = 10
    ∧ ChatFlow.aiohttpClientTimeoutModelListDefault < 300 := by
  refine ⟨rfl, rfl, ?_, ?_, rfl, ?_⟩
  · intro s hs hint
    simp [ChatFlow.parseAiohttpClientTimeout, hs, hint]
  · intro s n hs hint
    simp [ChatFlow.parseAiohttpClientTimeout, hs, hint]
  · norm_num [ChatFlow.aiohttpClientTimeoutModelListDefault]

/-- Witness for C8 amended: the unparsable value "abc" yields the
300-second fallback and the parsable value "1500" yields 1500 seconds. -/
theorem timeout_config_amended_witness :
    ChatFlow.parseAiohttpClientTimeout (some "abc") = some 300
    ∧ ChatFlow.parseAiohttpClientTimeout (some "1500") = some 1500 :=
  ⟨timeout_config_amended.2.2.1 "abc" (by decide) (by decide),
   timeout_config_amended.2.2.2.1 "1500" 1500 (by decide) (by decide)⟩

/-- Claim C9: getAgents never throws on a non-ok response: on an ok
response the agents store is set to the parsed body and that body is
returned; on a non-ok response the store is set to the empty list and the
empty list is returned without reading the body; in every successful
outcome the store equals the returned value. -/
theorem getAgents_store_and_return (resp : AgentsApi.FetchResponse (List String)) :
    (resp.ok = true → ∀ data, resp.jsonBody = Except.ok data →
        AgentsApi.getAgents resp = Except.ok (data, data))
    ∧ (resp.ok = false → AgentsApi.getAgents resp = Except.ok ([], []))
    ∧ (∀ store ret, AgentsApi.getAgents resp = Except.ok (store, ret) → store = ret) := by
  obtain ⟨ok, body⟩ := resp
  refine ⟨?_, ?_, ?_⟩
  · rintro rfl data rfl
    simp [AgentsApi.getAgents]
  · rintro rfl
    simp [AgentsApi.getAgents]
  · intro store ret h
    cases ok with
    | false =>
      injection h with h1
      injection h1 with h2 h3
      rw [← h2, ← h3]
    | true =>
      cases body with
      | ok data =>
        injection h with h1
        injection h1 with h2 h3
        rw [← h2, ← h3]
      | error e => exact absurd h (by simp [AgentsApi.getAgents])

/-- Witness for C9: an ok response with body ["a1"] sets and returns
["a1"]; a non-ok response sets and returns the empty list. -/
theorem getAgents_store_and_return_witness :
    AgentsApi.getAgents ⟨true, Except.ok ["a1"]⟩ = Except.ok (["a1"], ["a1"])
    ∧ AgentsApi.getAgents ⟨false, Except.error "boom"⟩ = Except.ok ([], []) :=
  ⟨(getAgents_store_and_return ⟨true, Except.ok ["a1"]⟩).1 rfl ["a1"] rfl,
   (getAgents_store_and_return ⟨false, Except.error "boom"⟩).2.1 rfl⟩

/-- Claim C10: the request issued by getAgent is independent of any
authentication token: two call environments that differ only in the token
produce the identical request, which carries no authorization header; and
the AgentEditor onMount call, which passes two arguments to the
one-parameter getAgent, issues the request with the token value in the id
position of the URL. -/
theorem getAgent_token_in_id_position (e1 e2 : AgentsApi.CallEnv)
    (id agentId : String) (hbase : e1.baseUrl = e2.baseUrl) :
    AgentsApi.getAgentRequestInEnv e1 id = AgentsApi.getAgentRequestInEnv e2 id
    ∧ (AgentsApi.getAgentRequestInEnv e1 id).headers = []
    ∧ AgentsApi.agentEditorOnMountRequest e1 agentId
        = { url := e1.baseUrl ++ "/agents/id/" ++ e1.token, headers := [] } := by
  refine ⟨?_, rfl, rfl⟩
  unfold AgentsApi.getAgentRequestInEnv AgentsApi.getAgentRequest
  rw [hbase]

/-- Witness for C10: two environments with distinct tokens produce the
same request for id "42", and the editor call with token "tokA" requests
the URL with "tokA" in the id position. -/
theorem getAgent_token_in_id_position_witness :
    AgentsApi.getAgentRequestInEnv ⟨"/api/v1", "tokA"⟩ "42"
        = AgentsApi.getAgentRequestInEnv ⟨"/api/v1", "tokB"⟩ "42"
    ∧ (AgentsApi.getAgentRequestInEnv ⟨"/api/v1", "tokA"⟩ "42").headers = []
    ∧ AgentsApi.agentEditorOnMountRequest ⟨"/api/v1", "tokA"⟩ "agent-7"
        = { url := "/api/v1" ++ "/agents/id/" ++ "tokA", headers := [] } :=
  getAgent_token_in_id_position ⟨"/api/v1", "tokA"⟩ ⟨"/api/v1", "tokB"⟩ "42" "agent-7" rfl
